import Mathlib

/-!
Verification of the blind-test-trainer core against its specification.

The Python sources are shallowly embedded:
* numeric values (ease factors, reaction times) are modelled as exact
  rationals, machine dates as integer day numbers;
* the builtin round of Python (round half to even) is modelled by pyRound;
* the ambient wall clock read (date.today()) becomes an explicit today
  parameter, and the ambient database connection becomes explicit lists
  of rows passed to each function;
* fallible constructors return Except.
-/

namespace BlindTest

/-- Python builtin round for a rational argument: nearest integer, with
ties (fractional part exactly one half) resolved to the even neighbour. -/
def pyRound (q : ℚ) : ℤ :=
  let f := ⌊q⌋
  if q - f < 1/2 then f
  else if 1/2 < q - f then f + 1
  else if f % 2 = 0 then f else f + 1

theorem pyRound_intCast (n : ℤ) : pyRound (n : ℚ) = n := by
  simp [pyRound]

theorem floor_le_pyRound (q : ℚ) : ⌊q⌋ ≤ pyRound q := by
  show ⌊q⌋ ≤ ite _ _ _
  split
  · exact le_refl _
  · split
    · omega
    · split <;> omega

/-- Embedding of srs_service._calculate_srs_for_correct_answer.
Input: the current interval and ease factor of the song and the reaction
time of the user; today is the explicit stand-in for date.today().
Output: (new interval, new ease factor, next review date). -/
def calculateSrsForCorrectAnswer (current_interval_days : ℤ) (ease_factor : ℚ)
    (reaction_time : ℚ) (today : ℤ) : ℤ × ℚ × ℤ :=
  let final_new_interval_days : ℤ :=
    if current_interval_days = 1 then
      4
    else
      let base_new_interval := pyRound ((current_interval_days : ℚ) * ease_factor)
      let interval_with_bonus : ℚ :=
        if 0 < reaction_time ∧ reaction_time < 3 then
          (base_new_interval : ℚ) * (6/5)
        else
          (base_new_interval : ℚ)
      pyRound interval_with_bonus
  (final_new_interval_days, ease_factor, today + final_new_interval_days)

/-- Embedding of srs_service._calculate_srs_for_wrong_answer.
Output: (new interval, new ease factor, next review date). -/
def calculateSrsForWrongAnswer (ease_factor : ℚ) (today : ℤ) : ℤ × ℚ × ℤ :=
  (1, max (13/10) (ease_factor - 1/5), today + 1)

/-- The scheduling state of one song: interval in days, ease factor and
next review date, as stored in the spaced_repetition table. -/
structure SrsFull where
  interval : ℤ
  ease : ℚ
  due : ℤ
deriving DecidableEq, Repr

/-- The pure part of srs_service.update_srs_data_for_song: dispatch between
the correct-answer and wrong-answer calculations on the fetched state. -/
def advance (s : SrsFull) (was_correct : Bool) (reaction_time : ℚ) (today : ℤ) : SrsFull :=
  if was_correct then
    let r := calculateSrsForCorrectAnswer s.interval s.ease reaction_time today
    ⟨r.1, r.2.1, r.2.2⟩
  else
    let r := calculateSrsForWrongAnswer s.ease today
    ⟨r.1, r.2.1, r.2.2⟩

/-- C1: for a correct answer with interval above one the ease factor is
unchanged and the new interval is round(round(interval * ease) * 1.2) when
the reaction time lies strictly between 0 and 3 seconds, and
round(interval * ease) otherwise; a reaction time of exactly 3 seconds gets
no bonus, and a non-positive reaction time gets no bonus (the function is
total, so it is never an error). -/
theorem srs_correct_interval_c1 (i : ℤ) (e : ℚ) (rt : ℚ) (today : ℤ) (h : 1 < i) :
    (calculateSrsForCorrectAnswer i e rt today).2.1 = e ∧
    ((0 < rt ∧ rt < 3) →
      (calculateSrsForCorrectAnswer i e rt today).1 =
        pyRound ((pyRound ((i : ℚ) * e) : ℚ) * (6/5))) ∧
    (¬ (0 < rt ∧ rt < 3) →
      (calculateSrsForCorrectAnswer i e rt today).1 = pyRound ((i : ℚ) * e)) ∧
    (calculateSrsForCorrectAnswer i e 3 today).1 = pyRound ((i : ℚ) * e) ∧
    (rt ≤ 0 →
      (calculateSrsForCorrectAnswer i e rt today).1 = pyRound ((i : ℚ) * e)) := by
  have hne : ¬ (i = 1) := by omega
  refine ⟨rfl, ?_, ?_, ?_, ?_⟩
  · intro hb
    simp [calculateSrsForCorrectAnswer, hne, hb]
  · intro hb
    simp [calculateSrsForCorrectAnswer, hne, hb, pyRound_intCast]
  · have h3 : ¬ ((0 : ℚ) < 3 ∧ (3 : ℚ) < 3) := by norm_num
    simp [calculateSrsForCorrectAnswer, hne, h3, pyRound_intCast]
  · intro hle
    have hb : ¬ (0 < rt ∧ rt < 3) := by
      intro hc
      exact absurd hc.1 (not_lt.mpr hle)
    simp [calculateSrsForCorrectAnswer, hne, hb, pyRound_intCast]

theorem srs_correct_interval_c1_witness :
    ((1 : ℤ) < 10) ∧
    ((calculateSrsForCorrectAnswer 10 (5/2) (5/2) 0).2.1 = (5/2 : ℚ) ∧
    ((0 < (5/2 : ℚ) ∧ (5/2 : ℚ) < 3) →
      (calculateSrsForCorrectAnswer 10 (5/2) (5/2) 0).1 =
        pyRound ((pyRound (((10 : ℤ) : ℚ) * (5/2)) : ℚ) * (6/5))) ∧
    (¬ (0 < (5/2 : ℚ) ∧ (5/2 : ℚ) < 3) →
      (calculateSrsForCorrectAnswer 10 (5/2) (5/2) 0).1 = pyRound (((10 : ℤ) : ℚ) * (5/2))) ∧
    (calculateSrsForCorrectAnswer 10 (5/2) 3 0).1 = pyRound (((10 : ℤ) : ℚ) * (5/2)) ∧
    ((5/2 : ℚ) ≤ 0 →
      (calculateSrsForCorrectAnswer 10 (5/2) (5/2) 0).1 = pyRound (((10 : ℤ) : ℚ) * (5/2)))) :=
  ⟨by decide, srs_correct_interval_c1 10 (5/2) (5/2) 0 (by decide)⟩

/-- C2: an incorrect answer always yields interval 1 and ease factor
max(1.3, ease - 0.2), for every reaction time including the timeout
sentinel; the identical recalculation used by the replay in
database_manager._recalculate_srs_for_wrong_answer agrees. -/
theorem srs_wrong_answer_c2 (s : SrsFull) (rt : ℚ) (today : ℤ) :
    advance s false rt today = ⟨1, max (13/10) (s.ease - 1/5), today + 1⟩ ∧
    (∀ rt2 : ℚ, advance s false rt today = advance s false rt2 today) := by
  constructor
  · rfl
  · intro rt2
    rfl

/-- C3: a correct answer on a song with interval 1 always yields the fixed
interval 4 with the ease factor unchanged, for every reaction time: the
speed bonus is never applied on this path. -/
theorem srs_first_correct_c3 (e : ℚ) (rt : ℚ) (today : ℤ) :
    calculateSrsForCorrectAnswer 1 e rt today = (4, e, today + 4) := by
  simp [calculateSrsForCorrectAnswer]

/-- The scheduling invariant of the data model: the ease factor never falls
below 1.3 and the interval never falls below one day. -/
def SrsInv (s : SrsFull) : Prop := 13/10 ≤ s.ease ∧ 1 ≤ s.interval

theorem wrongEase_le {e : ℚ} (he : 13/10 ≤ e) : max (13/10) (e - 1/5) ≤ e :=
  max_le he (by linarith)

theorem one_le_py_interval (b : ℤ) (hb : 1 ≤ b) (rt : ℚ) :
    1 ≤ pyRound (if 0 < rt ∧ rt < 3 then (b : ℚ) * (6/5) else (b : ℚ)) := by
  by_cases hrt : 0 < rt ∧ rt < 3
  · rw [if_pos hrt]
    have hbq : (1 : ℚ) ≤ (b : ℚ) := by exact_mod_cast hb
    have hb0 : (b : ℚ) ≤ (b : ℚ) * (6/5) := by nlinarith
    have hfl : b ≤ ⌊(b : ℚ) * (6/5)⌋ := Int.le_floor.mpr hb0
    have := floor_le_pyRound ((b : ℚ) * (6/5))
    omega
  · rw [if_neg hrt, pyRound_intCast]
    exact hb

theorem advance_srsInv (s : SrsFull) (hs : SrsInv s) (c : Bool) (rt : ℚ) (d : ℤ) :
    SrsInv (advance s c rt d) := by
  cases c with
  | false =>
    exact ⟨le_max_left _ _, le_refl 1⟩
  | true =>
    refine ⟨hs.1, ?_⟩
    show (1 : ℤ) ≤
      if s.interval = 1 then 4
      else pyRound (if 0 < rt ∧ rt < 3
        then ((pyRound ((s.interval : ℚ) * s.ease)) : ℚ) * (6/5)
        else ((pyRound ((s.interval : ℚ) * s.ease)) : ℚ))
    by_cases hi : s.interval = 1
    · rw [if_pos hi]
      omega
    · rw [if_neg hi]
      have h2 : (2 : ℤ) ≤ s.interval := by
        have := hs.2
        omega
      have h2q : (2 : ℚ) ≤ (s.interval : ℚ) := by exact_mod_cast h2
      have hprod : (2 : ℚ) ≤ (s.interval : ℚ) * s.ease := by nlinarith [hs.1]
      have hbase : (1 : ℤ) ≤ pyRound ((s.interval : ℚ) * s.ease) := by
        have hfl : (2 : ℤ) ≤ ⌊(s.interval : ℚ) * s.ease⌋ := by
          exact Int.le_floor.mpr (by exact_mod_cast hprod)
        have := floor_le_pyRound ((s.interval : ℚ) * s.ease)
        omega
      exact one_le_py_interval _ hbase rt

/-- Iteration of advance over a list of all-incorrect reviews; each list
entry carries the reaction time and the date of that review. -/
def runWrong (s : SrsFull) : List (ℚ × ℤ) → SrsFull
  | [] => s
  | step :: rest => runWrong (advance s false step.1 step.2) rest

theorem runWrong_inv (steps : List (ℚ × ℤ)) (s : SrsFull) (hs : SrsInv s) :
    SrsInv (runWrong s steps) := by
  induction steps generalizing s with
  | nil => exact hs
  | cons a rest ih =>
    exact ih (advance s false a.1 a.2) (advance_srsInv s hs false a.1 a.2)

theorem runWrong_ease_le (steps : List (ℚ × ℤ)) (s : SrsFull) (hs : SrsInv s) :
    (runWrong s steps).ease ≤ s.ease := by
  induction steps generalizing s with
  | nil => exact le_refl _
  | cons a rest ih =>
    have h1 : (advance s false a.1 a.2).ease = max (13/10) (s.ease - 1/5) := rfl
    have h2 : (runWrong (advance s false a.1 a.2) rest).ease ≤ (advance s false a.1 a.2).ease :=
      ih (advance s false a.1 a.2) (advance_srsInv s hs false a.1 a.2)
    calc (runWrong s (a :: rest)).ease
        = (runWrong (advance s false a.1 a.2) rest).ease := rfl
      _ ≤ (advance s false a.1 a.2).ease := h2
      _ ≤ s.ease := by rw [h1]; exact wrongEase_le hs.1

theorem runWrong_append (s : SrsFull) (l m : List (ℚ × ℤ)) :
    runWrong s (l ++ m) = runWrong (runWrong s l) m := by
  induction l generalizing s with
  | nil => rfl
  | cons a rest ih => exact ih (advance s false a.1 a.2)

/-- C6: from any state satisfying the invariants (ease at least 1.3,
interval at least one day) every advance step, for every outcome and every
reaction time, again satisfies them; and along any all-incorrect sequence
the ease factor stays bounded below by 1.3 and is monotonically
non-increasing. -/
theorem srs_invariants_c6 (s : SrsFull) (h : SrsInv s) :
    (∀ (c : Bool) (rt : ℚ) (d : ℤ), SrsInv (advance s c rt d)) ∧
    (∀ steps : List (ℚ × ℤ), (13/10 : ℚ) ≤ (runWrong s steps).ease) ∧
    (∀ steps extra : List (ℚ × ℤ),
      (runWrong s (steps ++ extra)).ease ≤ (runWrong s steps).ease) := by
  refine ⟨fun c rt d => advance_srsInv s h c rt d, ?_, ?_⟩
  · intro steps
    exact (runWrong_inv steps s h).1
  · intro steps extra
    rw [runWrong_append]
    exact runWrong_ease_le extra (runWrong s steps) (runWrong_inv steps s h)

theorem srs_invariants_c6_witness :
    SrsInv (advance ⟨1, 5/2, 0⟩ true 1 0) :=
  (srs_invariants_c6 ⟨1, 5/2, 0⟩ ⟨by norm_num, by norm_num⟩).1 true 1 0

/-- The three quiz modes accepted by QuizSession. -/
inductive QuizMode where
  | standard
  | challenge
  | gauntlet
deriving DecidableEq, Repr

/-- Embedding of services.quiz_session.QuizSession: the shuffled song id
sequence, its length, the cursor, the score, the mode and the list of
songs answered incorrectly (only ever filled in Gauntlet mode). Songs in
failed_songs are represented by their ids. -/
structure QuizSessionS where
  song_ids : List ℕ
  total_questions : ℕ
  current_question_index : ℕ
  score : ℕ
  mode : QuizMode
  failed_songs : List ℕ
deriving DecidableEq, Repr

/-- Embedding of QuizSession.__init__. The in-place random.shuffle is made
explicit as a function argument; raising ValueError becomes Except.error. -/
def mkQuizSession (shuffle : List ℕ → List ℕ) (song_ids : List ℕ) (mode : QuizMode) :
    Except String QuizSessionS :=
  if song_ids = [] then
    Except.error "Cannot start a quiz with no songs."
  else
    let shuffled := shuffle song_ids
    Except.ok ⟨shuffled, shuffled.length, 0, 0, mode, []⟩

/-- Embedding of QuizSession.is_finished. -/
def sessionFinished (s : QuizSessionS) : Bool :=
  s.total_questions ≤ s.current_question_index

/-- Embedding of QuizSession.next_song. -/
def nextSong (s : QuizSessionS) : QuizSessionS :=
  if sessionFinished s then s
  else { s with current_question_index := s.current_question_index + 1 }

/-- Embedding of QuizSession.record_result; song_data none models the
Python default argument None, and the truthiness test on the dict. -/
def recordResult (s : QuizSessionS) (was_correct : Bool) (song_data : Option ℕ) :
    QuizSessionS :=
  if was_correct then
    { s with score := s.score + 1 }
  else
    match s.mode, song_data with
    | QuizMode.gauntlet, some d => { s with failed_songs := s.failed_songs ++ [d] }
    | _, _ => s

/-- Result of one pass through QuizView.handle_user_response: the session
afterwards, and whether each of the two writes raised (each raise is
surfaced to the user as an error box). -/
structure ResponseResult where
  session : QuizSessionS
  history_write_failed : Bool
  srs_write_failed : Bool
deriving DecidableEq, Repr

/-- Embedding of the control flow of QuizView.handle_user_response. The
two fallible writes are modelled by the two Bool flags: when the play
history insert raises, the handler shows an error box and falls through;
record_result is then called without song_data; when the SRS update
raises, the handler shows an error box and returns without advancing;
otherwise it advances the session via next_song. -/
def handleUserResponse (s : QuizSessionS) (was_correct : Bool)
    (history_write_ok : Bool) (srs_write_ok : Bool) : ResponseResult :=
  let s2 := recordResult s was_correct none
  if srs_write_ok then
    ⟨nextSong s2, !history_write_ok, false⟩
  else
    ⟨s2, !history_write_ok, true⟩

/-- C7 counterexample: in a fresh two-song standard session, a correct
answer whose play history write fails still advances the position and
still increments the score, contradicting the claim that a failed review
event write leaves position and score unchanged. -/
theorem quiz_persistence_c7_cex :
    ¬ (((handleUserResponse ⟨[1, 2], 2, 0, 0, QuizMode.standard, []⟩ true false true).session.current_question_index = 0) ∧
       ((handleUserResponse ⟨[1, 2], 2, 0, 0, QuizMode.standard, []⟩ true false true).session.score = 0)) := by
  decide

/-- C7 (amended): a failed SRS state write is signalled and stops the
position from advancing, but the score update has already happened; a
failed play history write is signalled yet the handler continues, so the
position still advances whenever the SRS write succeeds and the score is
updated regardless of either failure. -/
theorem quiz_persistence_c7 (s : QuizSessionS) (wc hOk sOk : Bool) :
    ((handleUserResponse s wc hOk sOk).history_write_failed = !hOk) ∧
    ((handleUserResponse s wc hOk sOk).srs_write_failed = !sOk) ∧
    (sOk = false →
      (handleUserResponse s wc hOk sOk).session.current_question_index
        = s.current_question_index) ∧
    (sOk = true →
      (handleUserResponse s wc hOk sOk).session = nextSong (recordResult s wc none)) ∧
    ((handleUserResponse s wc hOk sOk).session.score
      = s.score + (if wc then 1 else 0)) := by
  have hscore : ∀ t : QuizSessionS, (nextSong t).score = t.score := by
    intro t
    unfold nextSong
    split <;> rfl
  have hrec : (recordResult s wc none).score = s.score + (if wc then 1 else 0) := by
    unfold recordResult
    cases wc with
    | false =>
      simp only [Bool.false_eq_true, if_false]
      cases hm : s.mode <;> simp
    | true => simp
  have hidx : (recordResult s wc none).current_question_index
      = s.current_question_index := by
    unfold recordResult
    cases wc with
    | false =>
      simp only [Bool.false_eq_true, if_false]
      cases hm : s.mode <;> simp
    | true => simp
  cases sOk with
  | false =>
    refine ⟨rfl, rfl, fun _ => hidx, fun hcontra => by simp at hcontra, ?_⟩
    exact hrec
  | true =>
    refine ⟨rfl, rfl, fun hcontra => by simp at hcontra, fun _ => rfl, ?_⟩
    show (nextSong (recordResult s wc none)).score = _
    rw [hscore, hrec]

theorem quiz_persistence_c7_witness :
    ((handleUserResponse ⟨[5], 1, 0, 0, QuizMode.standard, []⟩ true true false).history_write_failed = !true) ∧
    ((handleUserResponse ⟨[5], 1, 0, 0, QuizMode.standard, []⟩ true true false).srs_write_failed = !false) ∧
    (false = false →
      (handleUserResponse ⟨[5], 1, 0, 0, QuizMode.standard, []⟩ true true false).session.current_question_index
        = (⟨[5], 1, 0, 0, QuizMode.standard, []⟩ : QuizSessionS).current_question_index) ∧
    (false = true →
      (handleUserResponse ⟨[5], 1, 0, 0, QuizMode.standard, []⟩ true true false).session
        = nextSong (recordResult ⟨[5], 1, 0, 0, QuizMode.standard, []⟩ true none)) ∧
    ((handleUserResponse ⟨[5], 1, 0, 0, QuizMode.standard, []⟩ true true false).session.score
      = (⟨[5], 1, 0, 0, QuizMode.standard, []⟩ : QuizSessionS).score + (if true then 1 else 0)) :=
  quiz_persistence_c7 ⟨[5], 1, 0, 0, QuizMode.standard, []⟩ true true false

/-- C9: evaluating the handler at the failing input. On a Gauntlet session
an incorrect answer submitted through QuizView.handle_user_response leaves
failed_songs empty, because the handler calls record_result without
song_data; record_result itself does append the song when song_data is
supplied, as its docstring requires for Gauntlet mode. -/
theorem gauntlet_failed_songs_c9 :
    ((handleUserResponse ⟨[7], 1, 0, 0, QuizMode.gauntlet, []⟩ false true true).session.failed_songs = []) ∧
    (recordResult ⟨[7], 1, 0, 0, QuizMode.gauntlet, []⟩ false (some 7)
      = ⟨[7], 1, 0, 0, QuizMode.gauntlet, [7]⟩) := by
  decide

/-- C10: constructing a session from an empty id list yields exactly the
ValueError, and every successfully constructed session has at least one
question, for any length-preserving shuffle and any mode. -/
theorem quiz_init_c10 (shuffle : List ℕ → List ℕ)
    (hshuffle : ∀ l, (shuffle l).length = l.length)
    (song_ids : List ℕ) (mode : QuizMode) :
    (mkQuizSession shuffle song_ids mode
      = Except.error "Cannot start a quiz with no songs." ↔ song_ids = []) ∧
    (∀ s : QuizSessionS, mkQuizSession shuffle song_ids mode = Except.ok s →
      1 ≤ s.total_questions) := by
  constructor
  · constructor
    · intro herr
      by_contra hne
      rw [mkQuizSession, if_neg hne] at herr
      exact Except.noConfusion herr
    · intro hnil
      rw [mkQuizSession, if_pos hnil]
  · intro s hok
    by_cases hnil : song_ids = []
    · rw [mkQuizSession, if_pos hnil] at hok
      exact Except.noConfusion hok
    · rw [mkQuizSession, if_neg hnil] at hok
      have hs := Except.ok.inj hok
      have hlen : s.total_questions = song_ids.length := by
        rw [← hs]
        exact hshuffle song_ids
      have hpos : 0 < song_ids.length := List.length_pos.mpr hnil
      omega

theorem quiz_init_c10_witness :
    (mkQuizSession id [3] QuizMode.standard
      = Except.error "Cannot start a quiz with no songs." ↔ ([3] : List ℕ) = []) ∧
    (∀ s : QuizSessionS, mkQuizSession id [3] QuizMode.standard = Except.ok s →
      1 ≤ s.total_questions) :=
  quiz_init_c10 id (fun _ => rfl) [3] QuizMode.standard

/-- The per-round state of QuizView.round_state. -/
inductive RoundState where
  | idle
  | playing
  | answering
deriving DecidableEq, Repr

/-- The mutable fields of QuizView touched by the reveal triggers: the
round state, the captured reaction time, the timestamp at which playback
started, and the session. -/
structure QuizViewState where
  round_state : RoundState
  reaction_time : ℚ
  start_time : ℚ
  session : QuizSessionS
deriving DecidableEq, Repr

/-- Python round(x, 2), used on the captured reaction time. -/
def round2 (q : ℚ) : ℚ := (pyRound (q * 100) : ℚ) / 100

/-- Embedding of QuizView.handle_spacebar_press: a no-op unless the round
state is playing; otherwise it captures the elapsed time and moves the
round to answering. The wall clock read time.time() is the explicit now
argument. -/
def handleSpacebarPress (v : QuizViewState) (now : ℚ) : QuizViewState :=
  if v.round_state ≠ RoundState.playing then v
  else
    { v with
      round_state := RoundState.answering,
      reaction_time := round2 (now - v.start_time) }

/-- Embedding of QuizView.check_music_status: a no-op unless the round
state is playing; when playback has ended naturally it records the timeout
sentinel reaction time -1 and moves the round to answering; while music is
still busy it merely re-schedules itself. -/
def checkMusicStatus (v : QuizViewState) (music_busy : Bool) : QuizViewState :=
  if v.round_state ≠ RoundState.playing then v
  else if !music_busy then
    { v with round_state := RoundState.answering, reaction_time := -1 }
  else v

/-- One external stimulus arriving at the view: a spacebar press at a given
wall clock time, or one poll of the music status. -/
inductive RoundTrigger where
  | spacebar (now : ℚ)
  | musicPoll (busy : Bool)

/-- Dispatch of a stimulus to its handler. -/
def applyTrigger (v : QuizViewState) : RoundTrigger → QuizViewState
  | RoundTrigger.spacebar t => handleSpacebarPress v t
  | RoundTrigger.musicPoll b => checkMusicStatus v b

theorem applyTrigger_frozen (w : QuizViewState) (hw : w.round_state ≠ RoundState.playing)
    (trg : RoundTrigger) : applyTrigger w trg = w := by
  cases trg with
  | spacebar t =>
    show handleSpacebarPress w t = w
    unfold handleSpacebarPress
    rw [if_pos hw]
  | musicPoll b =>
    show checkMusicStatus w b = w
    unfold checkMusicStatus
    rw [if_pos hw]

theorem foldl_triggers_frozen (w : QuizViewState) (hw : w.round_state ≠ RoundState.playing)
    (trgs : List RoundTrigger) : trgs.foldl applyTrigger w = w := by
  induction trgs with
  | nil => rfl
  | cons trg rest ih =>
    show rest.foldl applyTrigger (applyTrigger w trg) = w
    rw [applyTrigger_frozen w hw trg]
    exact ih

/-- C8: while the round is playing, a spacebar press captures the elapsed
reaction time and moves the round to answering, the natural end of
playback captures the timeout sentinel and moves the round to answering,
and a poll that finds music still busy changes nothing; once the round
state is no longer playing, any sequence of further triggers leaves the
entire view state, captured reaction time and session included,
unchanged — in particular everything after the first reveal trigger. -/
theorem round_reveal_c8 (v : QuizViewState) (h : v.round_state = RoundState.playing) :
    (∀ now, handleSpacebarPress v now =
      { v with
        round_state := RoundState.answering,
        reaction_time := round2 (now - v.start_time) }) ∧
    (checkMusicStatus v false =
      { v with round_state := RoundState.answering, reaction_time := -1 }) ∧
    (checkMusicStatus v true = v) ∧
    (∀ w : QuizViewState, w.round_state ≠ RoundState.playing →
      ∀ trgs : List RoundTrigger, trgs.foldl applyTrigger w = w) ∧
    (∀ now (trgs : List RoundTrigger),
      trgs.foldl applyTrigger (handleSpacebarPress v now) = handleSpacebarPress v now) ∧
    (∀ trgs : List RoundTrigger,
      trgs.foldl applyTrigger (checkMusicStatus v false) = checkMusicStatus v false) := by
  have hnot : ¬ (v.round_state ≠ RoundState.playing) := by
    rw [h]
    intro hc
    exact hc rfl
  have hspace : ∀ now, handleSpacebarPress v now =
      { v with
        round_state := RoundState.answering,
        reaction_time := round2 (now - v.start_time) } := by
    intro now
    unfold handleSpacebarPress
    rw [if_neg hnot]
  have hmusic : checkMusicStatus v false =
      { v with round_state := RoundState.answering, reaction_time := -1 } := by
    unfold checkMusicStatus
    rw [if_neg hnot]
    rfl
  refine ⟨hspace, hmusic, ?_, fun w hw trgs => foldl_triggers_frozen w hw trgs, ?_, ?_⟩
  · unfold checkMusicStatus
    rw [if_neg hnot]
    rfl
  · intro now trgs
    apply foldl_triggers_frozen
    rw [hspace now]
    intro hc
    exact RoundState.noConfusion hc
  · intro trgs
    apply foldl_triggers_frozen
    rw [hmusic]
    intro hc
    exact RoundState.noConfusion hc

theorem round_reveal_c8_witness :
    checkMusicStatus ⟨RoundState.playing, 0, 0, ⟨[1], 1, 0, 0, QuizMode.standard, []⟩⟩ false =
      { (⟨RoundState.playing, 0, 0, ⟨[1], 1, 0, 0, QuizMode.standard, []⟩⟩ : QuizViewState) with
        round_state := RoundState.answering, reaction_time := -1 } :=
  (round_reveal_c8 ⟨RoundState.playing, 0, 0, ⟨[1], 1, 0, 0, QuizMode.standard, []⟩⟩ rfl).2.1

/-- One row of the play_history table as fetched by
database_manager._get_all_play_history: the song id, the calendar date of
the play (an integer day number), the outcome and the reaction time. -/
structure PlayEvent where
  song_id : ℕ
  event_date : ℤ
  was_correct : Bool
  reaction_time : ℚ
deriving DecidableEq, Repr

/-- Embedding of database_manager._recalculate_srs_for_correct_answer. -/
def recalcCorrect (current_interval : ℤ) (ease_factor : ℚ) (reaction_time : ℚ) : ℤ × ℚ :=
  if current_interval = 1 then
    (4, ease_factor)
  else
    let base_new_interval := pyRound ((current_interval : ℚ) * ease_factor)
    let interval_with_bonus : ℚ :=
      if 0 < reaction_time ∧ reaction_time < 3 then
        (base_new_interval : ℚ) * (6/5)
      else
        (base_new_interval : ℚ)
    (pyRound interval_with_bonus, ease_factor)

/-- Embedding of database_manager._recalculate_srs_for_wrong_answer. -/
def recalcWrong (ease_factor : ℚ) : ℤ × ℚ :=
  (1, max (13/10) (ease_factor - 1/5))

/-- The in-memory srs_states dict of get_mastery_over_time: song id to
(interval, ease). -/
abbrev SrsMap := List (ℕ × ℤ × ℚ)

/-- The initial states dict: every song starts at interval 1, ease 2.5. -/
def initStates (ids : List ℕ) : SrsMap :=
  ids.map (fun i => (i, 1, (5/2 : ℚ)))

/-- In-place update of one key of the dict. -/
def setState (st : SrsMap) (id : ℕ) (itv : ℤ) (e : ℚ) : SrsMap :=
  st.map (fun p => if p.1 = id then (id, itv, e) else p)

/-- The body of the simulation loop of get_mastery_over_time for one
history row: songs absent from the dict are skipped, otherwise the row is
pushed through the matching recalculation. -/
def applyEvent (st : SrsMap) (ev : PlayEvent) : SrsMap :=
  match st.lookup ev.song_id with
  | none => st
  | some s =>
    let r := if ev.was_correct then recalcCorrect s.1 s.2 ev.reaction_time
             else recalcWrong s.2
    setState st ev.song_id r.1 r.2

/-- A song counts as mastered when its simulated interval is at least 30. -/
def isMastered (st : SrsMap) (id : ℕ) : Bool :=
  match st.lookup id with
  | some s => decide (30 ≤ s.1)
  | none => false

/-- The mastered-count loop of get_mastery_over_time. -/
def countMastered (ids : List ℕ) (st : SrsMap) : ℕ :=
  ids.countP (fun i => isMastered st i)

/-- The inner while loop of get_mastery_over_time: consume every still
unconsumed history row whose date is at most the report date, applying it
to the states; return the new states and the remaining rows (the cursor
history_idx is represented by the remaining suffix). -/
def consumeUpTo (d : ℤ) : List PlayEvent → SrsMap → SrsMap × List PlayEvent
  | [], st => (st, [])
  | ev :: rest, st =>
    if ev.event_date ≤ d then consumeUpTo d rest (applyEvent st ev)
    else (st, ev :: rest)

/-- The outer for loop of get_mastery_over_time: one (date, count) entry
per report date, sharing one monotonic cursor over the history. -/
def masteryWalk (ids : List ℕ) : List ℤ → List PlayEvent → SrsMap → List (ℤ × ℕ)
  | [], _, _ => []
  | d :: ds, evs, st =>
    let r := consumeUpTo d evs st
    (d, countMastered ids r.1) :: masteryWalk ids ds r.2 r.1

/-- The reversed date_range of get_mastery_over_time: the last days dates
up to and including today, oldest first. -/
def dateRange (today : ℤ) (days : ℕ) : List ℤ :=
  ((List.range days).map (fun (i : ℕ) => today - (i : ℤ))).reverse

/-- Embedding of database_manager.get_mastery_over_time, with the song
table, the history (ordered by timestamp), and the wall clock date passed
explicitly. Output: the (date, mastered count) series, oldest first. -/
def getMasteryOverTime (ids : List ℕ) (history : List PlayEvent) (today : ℤ) (days : ℕ) :
    List (ℤ × ℕ) :=
  if ids = [] then (dateRange today days).map (fun d => (d, 0))
  else masteryWalk ids (dateRange today days) history (initStates ids)

/-- The specification-side naive reconstruction for one date: replay,
from the default states, every logged event whose date is at most that
date, in log order, then count the mastered songs. The refinement claim
compares the single-cursor walk against this per-date full replay. -/
def naiveMastered (ids : List ℕ) (history : List PlayEvent) (d : ℤ) : ℕ :=
  countMastered ids
    ((history.filter (fun ev => decide (ev.event_date ≤ d))).foldl applyEvent (initStates ids))

theorem consumeUpTo_eq (d : ℤ) (evs : List PlayEvent) (st : SrsMap) :
    consumeUpTo d evs st =
      ((evs.takeWhile (fun ev => decide (ev.event_date ≤ d))).foldl applyEvent st,
       evs.dropWhile (fun ev => decide (ev.event_date ≤ d))) := by
  induction evs generalizing st with
  | nil => rfl
  | cons ev rest ih =>
    by_cases h : ev.event_date ≤ d
    · simp [consumeUpTo, List.takeWhile_cons, List.dropWhile_cons, h, ih]
    · simp [consumeUpTo, List.takeWhile_cons, List.dropWhile_cons, h]

theorem filter_le_eq_takeWhile (d : ℤ) (evs : List PlayEvent)
    (h : evs.Pairwise (fun a b => a.event_date ≤ b.event_date)) :
    evs.filter (fun ev => decide (ev.event_date ≤ d))
      = evs.takeWhile (fun ev => decide (ev.event_date ≤ d)) := by
  induction evs with
  | nil => rfl
  | cons ev rest ih =>
    rcases List.pairwise_cons.mp h with ⟨hhead, htail⟩
    by_cases hd : ev.event_date ≤ d
    · simp only [List.filter_cons, List.takeWhile_cons, decide_eq_true hd, if_true]
      rw [ih htail]
    · have hnil : rest.filter (fun ev => decide (ev.event_date ≤ d)) = [] := by
        refine List.filter_eq_nil_iff.mpr ?_
        intro b hb
        have hab := hhead b hb
        simp only [decide_eq_true_eq]
        omega
      simp only [List.filter_cons, List.takeWhile_cons]
      rw [if_neg (by simpa using hd), if_neg (by simpa using hd)]
      exact hnil

theorem masteryWalk_eq_naive (ids : List ℕ) (ds : List ℤ) (pre evs : List PlayEvent)
    (hsort : (pre ++ evs).Pairwise (fun a b => a.event_date ≤ b.event_date))
    (hpre : ∀ d ∈ ds, ∀ ev ∈ pre, ev.event_date ≤ d)
    (hds : ds.Pairwise (fun a b => a ≤ b)) :
    masteryWalk ids ds evs (pre.foldl applyEvent (initStates ids))
      = ds.map (fun d => (d, naiveMastered ids (pre ++ evs) d)) := by
  induction ds generalizing pre evs with
  | nil => rfl
  | cons d ds ih =>
    rcases List.pairwise_cons.mp hds with ⟨hdall, hds2⟩
    have hpre_d : ∀ ev ∈ pre, ev.event_date ≤ d :=
      hpre d (List.mem_cons_self d ds)
    have hevs_sorted : evs.Pairwise (fun a b => a.event_date ≤ b.event_date) :=
      List.Pairwise.sublist (List.sublist_append_right pre evs) hsort
    have hfilter_pre : pre.filter (fun ev => decide (ev.event_date ≤ d)) = pre :=
      List.filter_eq_self.mpr (fun ev hev => decide_eq_true (hpre_d ev hev))
    have hfilter_evs := filter_le_eq_takeWhile d evs hevs_sorted
    show (let r := consumeUpTo d evs (pre.foldl applyEvent (initStates ids))
          (d, countMastered ids r.1) :: masteryWalk ids ds r.2 r.1)
        = _
    rw [consumeUpTo_eq]
    have hsplit : pre ++ evs.takeWhile (fun ev => decide (ev.event_date ≤ d))
        ++ evs.dropWhile (fun ev => decide (ev.event_date ≤ d)) = pre ++ evs := by
      rw [List.append_assoc, List.takeWhile_append_dropWhile]
    have hstate : (evs.takeWhile (fun ev => decide (ev.event_date ≤ d))).foldl applyEvent
          (pre.foldl applyEvent (initStates ids))
        = (pre ++ evs.takeWhile (fun ev => decide (ev.event_date ≤ d))).foldl applyEvent
          (initStates ids) := by
      rw [List.foldl_append]
    have hhead : countMastered ids
          ((evs.takeWhile (fun ev => decide (ev.event_date ≤ d))).foldl applyEvent
            (pre.foldl applyEvent (initStates ids)))
        = naiveMastered ids (pre ++ evs) d := by
      rw [hstate]
      unfold naiveMastered
      rw [List.filter_append, hfilter_pre, hfilter_evs]
    have htail : masteryWalk ids ds (evs.dropWhile (fun ev => decide (ev.event_date ≤ d)))
          ((evs.takeWhile (fun ev => decide (ev.event_date ≤ d))).foldl applyEvent
            (pre.foldl applyEvent (initStates ids)))
        = ds.map (fun d2 => (d2, naiveMastered ids (pre ++ evs) d2)) := by
      rw [hstate]
      have hres := ih (pre ++ evs.takeWhile (fun ev => decide (ev.event_date ≤ d)))
        (evs.dropWhile (fun ev => decide (ev.event_date ≤ d)))
        (by rw [hsplit]; exact hsort)
        (by
          intro d2 hd2 ev hev
          rcases List.mem_append.mp hev with hin | hin
          · exact hpre d2 (List.mem_cons_of_mem d hd2) ev hin
          · have h1 : ev.event_date ≤ d := by
              have := List.mem_takeWhile_imp hin
              simpa using this
            exact le_trans h1 (hdall d2 hd2))
        hds2
      rw [hres, hsplit]
    show (d, countMastered ids _) :: masteryWalk ids ds _ _ = _
    rw [List.map_cons, hhead, htail]

theorem dateRange_succ (today : ℤ) (n : ℕ) :
    dateRange today (n + 1) = (today - n) :: dateRange today n := by
  unfold dateRange
  rw [List.range_succ, List.map_append, List.reverse_append]
  rfl

theorem dateRange_eq (today : ℤ) (days : ℕ) :
    dateRange today days = (List.range days).map (fun (k : ℕ) => today + (k : ℤ) + 1 - (days : ℤ)) := by
  induction days with
  | zero => rfl
  | succ n ih =>
    rw [dateRange_succ, ih, List.range_succ_eq_map, List.map_cons, List.map_map]
    have hhead : (today - n) = today + ((0 : ℕ) : ℤ) + 1 - ((n + 1 : ℕ) : ℤ) := by
      push_cast
      ring
    have htail : ∀ k ∈ List.range n,
        today + (k : ℤ) + 1 - (n : ℤ)
          = today + ((Nat.succ k : ℕ) : ℤ) + 1 - ((n + 1 : ℕ) : ℤ) := by
      intro k _
      push_cast
      ring
    rw [List.map_congr_left htail]
    rw [← hhead]
    rfl

/-- C4: for a timestamp-sorted review log and any window of at least one
day, get_mastery_over_time produces exactly the per-date naive
reconstruction: one entry per date of the window, oldest to newest, with
dates forming the consecutive range ending today, and each count equal to
the count obtained by replaying, from the default states, every event
dated at most that date; hence the single-cursor pass agrees with a full
per-date replay. -/
theorem mastery_over_time_c4 (ids : List ℕ) (history : List PlayEvent)
    (today : ℤ) (days : ℕ)
    (hsort : history.Pairwise (fun a b => a.event_date ≤ b.event_date))
    (hdays : 1 ≤ days) :
    getMasteryOverTime ids history today days
      = (dateRange today days).map (fun d => (d, naiveMastered ids history d)) ∧
    dateRange today days = (List.range days).map (fun (k : ℕ) => today + (k : ℤ) + 1 - (days : ℤ)) ∧
    (getMasteryOverTime ids history today days).length = days ∧
    (getMasteryOverTime ids history today days).getLast?
      = some (today, naiveMastered ids history today) := by
  have hmain : getMasteryOverTime ids history today days
      = (dateRange today days).map (fun d => (d, naiveMastered ids history d)) := by
    unfold getMasteryOverTime
    by_cases hids : ids = []
    · rw [if_pos hids]
      refine List.map_congr_left ?_
      intro d _
      have : naiveMastered ids history d = 0 := by
        rw [hids]
        rfl
      rw [this]
    · rw [if_neg hids]
      have hrange : (dateRange today days).Pairwise (fun a b => a ≤ b) := by
        rw [dateRange_eq]
        refine List.Pairwise.map _ ?_ (List.pairwise_lt_range days)
        intro a b hab
        omega
      have := masteryWalk_eq_naive ids (dateRange today days) [] history hsort
        (by intro d _ ev hev; exact absurd hev (List.not_mem_nil ev)) hrange
      simpa using this
  have hlen : (dateRange today days).length = days := by
    unfold dateRange
    rw [List.length_reverse, List.length_map, List.length_range]
  have hlast : (dateRange today days).getLast? = some today := by
    unfold dateRange
    rw [List.getLast?_reverse, List.head?_map]
    obtain ⟨m, hm⟩ : ∃ m, days = m + 1 := ⟨days - 1, by omega⟩
    rw [hm, List.range_succ_eq_map]
    simp
  refine ⟨hmain, dateRange_eq today days, ?_, ?_⟩
  · rw [hmain, List.length_map, hlen]
  · rw [hmain, List.getLast?_map, hlast]
    rfl

theorem mastery_over_time_c4_witness :
    getMasteryOverTime [1] [⟨1, 95, true, 1⟩, ⟨1, 96, true, 1⟩, ⟨1, 97, true, 5⟩] 98 4
      = (dateRange 98 4).map
          (fun d => (d, naiveMastered [1] [⟨1, 95, true, 1⟩, ⟨1, 96, true, 1⟩, ⟨1, 97, true, 5⟩] d)) ∧
    dateRange 98 4 = (List.range 4).map (fun (k : ℕ) => 98 + (k : ℤ) + 1 - ((4 : ℕ) : ℤ)) ∧
    (getMasteryOverTime [1] [⟨1, 95, true, 1⟩, ⟨1, 96, true, 1⟩, ⟨1, 97, true, 5⟩] 98 4).length = 4 ∧
    (getMasteryOverTime [1] [⟨1, 95, true, 1⟩, ⟨1, 96, true, 1⟩, ⟨1, 97, true, 5⟩] 98 4).getLast?
      = some (98, naiveMastered [1] [⟨1, 95, true, 1⟩, ⟨1, 96, true, 1⟩, ⟨1, 97, true, 5⟩] 98) :=
  mastery_over_time_c4 [1] [⟨1, 95, true, 1⟩, ⟨1, 96, true, 1⟩, ⟨1, 97, true, 5⟩] 98 4
    (by decide) (by decide)

/-- The chronological event sequence of one song: the rows of the
timestamp-ordered play history carrying its song id. -/
def eventsFor (history : List PlayEvent) (id : ℕ) : List PlayEvent :=
  history.filter (fun ev => decide (ev.song_id = id))

/-- Position of the first correct play in a most-recent-first sequence;
this is MIN(rn) - 1 of the RankedPlays window of get_problem_songs, where
rn numbers plays from the most recent one. -/
def idxOfFirstCorrect : List PlayEvent → Option ℕ
  | [] => none
  | ev :: rest =>
    if ev.was_correct then some 0
    else (idxOfFirstCorrect rest).map (fun n => n + 1)

/-- The SongLossStreaks value of get_problem_songs: the number of plays
more recent than the most recent correct play, or the total play count of
the song when it was never answered correctly. -/
def lossStreak (evs : List PlayEvent) : ℕ :=
  match idxOfFirstCorrect evs.reverse with
  | some i => i
  | none => evs.length

/-- The loss streak in the words of the specification: the count of the
consecutive incorrect outcomes at the end of the chronologically ordered
event sequence of an item. -/
def trailingIncorrect (evs : List PlayEvent) : ℕ :=
  ((evs.reverse).takeWhile (fun ev => !ev.was_correct)).length

theorem idx_eq_takeWhile (l : List PlayEvent) :
    (idxOfFirstCorrect l).getD l.length
      = (l.takeWhile (fun ev => !ev.was_correct)).length := by
  induction l with
  | nil => rfl
  | cons ev rest ih =>
    cases hc : ev.was_correct with
    | true =>
      simp [idxOfFirstCorrect, List.takeWhile_cons, hc]
    | false =>
      cases hidx : idxOfFirstCorrect rest with
      | none =>
        rw [hidx] at ih
        simp only [Option.getD_none] at ih
        simp [idxOfFirstCorrect, List.takeWhile_cons, hc, hidx, ih]
      | some j =>
        rw [hidx] at ih
        simp only [Option.getD_some] at ih
        simp [idxOfFirstCorrect, List.takeWhile_cons, hc, hidx, ih]

theorem lossStreak_eq_getD (evs : List PlayEvent) :
    lossStreak evs = (idxOfFirstCorrect evs.reverse).getD evs.length := by
  unfold lossStreak
  cases idxOfFirstCorrect evs.reverse <;> rfl

theorem lossStreak_eq_trailing (evs : List PlayEvent) :
    lossStreak evs = trailingIncorrect evs := by
  rw [lossStreak_eq_getD]
  have h := idx_eq_takeWhile evs.reverse
  rw [List.length_reverse] at h
  exact h

theorem trailing_of_no_correct (evs : List PlayEvent)
    (h : evs.countP (fun ev => ev.was_correct) = 0) :
    trailingIncorrect evs = evs.length := by
  unfold trailingIncorrect
  have hall : ∀ ev ∈ evs.reverse, (!ev.was_correct) = true := by
    intro ev hev
    have hmem : ev ∈ evs := List.mem_reverse.mp hev
    have := List.countP_eq_zero.mp h ev hmem
    cases hc : ev.was_correct with
    | true => rw [hc] at this; exact absurd rfl this
    | false => rfl
  rw [List.takeWhile_eq_self_iff.mpr hall, List.length_reverse]

/-- One output row of get_problem_songs (title and artist omitted: they
are carried through the join unchanged and identified by the song id). -/
structure ProblemEntry where
  song_id : ℕ
  loss_streak : ℕ
  success_rate : ℚ
  attempts : ℕ
deriving DecidableEq, Repr

/-- The aggregated row of get_problem_songs for one song: its loss
streak, its exact success rate (SUM(was_correct) * 1.0 / COUNT) and its
attempt count. -/
def entryFor (history : List PlayEvent) (id : ℕ) : ProblemEntry :=
  let evs := eventsFor history id
  ⟨id, lossStreak evs,
    ((evs.countP (fun ev => ev.was_correct)) : ℚ) / ((evs.length : ℕ) : ℚ),
    evs.length⟩

/-- The ORDER BY key of get_problem_songs: loss streak descending, then
success rate ascending. -/
def problemRel (a b : ProblemEntry) : Prop :=
  b.loss_streak < a.loss_streak ∨
    (a.loss_streak = b.loss_streak ∧ a.success_rate ≤ b.success_rate)

instance : DecidableRel problemRel := fun a b => by
  unfold problemRel
  infer_instance

instance : IsTotal ProblemEntry problemRel := by
  constructor
  intro a b
  rcases lt_trichotomy a.loss_streak b.loss_streak with h | h | h
  · exact Or.inr (Or.inl h)
  · rcases le_total a.success_rate b.success_rate with hs | hs
    · exact Or.inl (Or.inr ⟨h, hs⟩)
    · exact Or.inr (Or.inr ⟨h.symm, hs⟩)
  · exact Or.inl (Or.inl h)

instance : IsTrans ProblemEntry problemRel := by
  constructor
  intro a b c hab hbc
  rcases hab with h1 | h1 <;> rcases hbc with h2 | h2
  · exact Or.inl (by omega)
  · exact Or.inl (by omega)
  · exact Or.inl (by omega)
  · exact Or.inr ⟨by omega, le_trans h1.2 h2.2⟩

/-- Embedding of database_manager.get_problem_songs over the play history
(ordered by timestamp): group the history by song, compute loss streak,
success rate and attempts per song, keep the songs with enough attempts,
sort by the ORDER BY key and truncate to the limit. -/
def getProblemSongs (history : List PlayEvent) (limit min_attempts : ℕ) :
    List ProblemEntry :=
  let ids := (history.map (fun ev => ev.song_id)).dedup
  let entries := (ids.map (fun i => entryFor history i)).filter
    (fun e => decide (min_attempts ≤ e.attempts))
  (List.insertionSort problemRel entries).take limit

/-- C5: every returned entry belongs to a song with at least min_attempts
plays, carries that song's exact attempt count, a loss streak equal to
the count of trailing incorrect outcomes of its chronological event
sequence (hence equal to its attempt count when it was never answered
correctly), and the exact success rate correct / attempts; the output is
sorted by loss streak descending then success rate ascending, and has at
most limit entries. -/
theorem problem_songs_c5 (history : List PlayEvent) (limit min_attempts : ℕ) :
    (∀ e ∈ getProblemSongs history limit min_attempts,
      min_attempts ≤ e.attempts ∧
      e.attempts = (eventsFor history e.song_id).length ∧
      e.loss_streak = trailingIncorrect (eventsFor history e.song_id) ∧
      ((eventsFor history e.song_id).countP (fun ev => ev.was_correct) = 0 →
        e.loss_streak = e.attempts) ∧
      e.success_rate
        = (((eventsFor history e.song_id).countP (fun ev => ev.was_correct)) : ℚ)
            / (((eventsFor history e.song_id).length : ℕ) : ℚ)) ∧
    List.Sorted problemRel (getProblemSongs history limit min_attempts) ∧
    (getProblemSongs history limit min_attempts).length ≤ limit := by
  refine ⟨?_, ?_, ?_⟩
  · intro e he
    have he2 : e ∈ List.insertionSort problemRel
        (((history.map (fun ev => ev.song_id)).dedup.map (fun i => entryFor history i)).filter
          (fun e => decide (min_attempts ≤ e.attempts))) :=
      (List.take_sublist limit _).subset he
    have he3 := (List.mem_insertionSort problemRel).mp he2
    rcases List.mem_filter.mp he3 with ⟨he4, hatt⟩
    rcases List.mem_map.mp he4 with ⟨i, _, hei⟩
    have hatt2 : min_attempts ≤ e.attempts := by
      simpa using hatt
    have hsid : e.song_id = i := by
      rw [← hei]
      rfl
    subst hei
    rw [hsid]
    refine ⟨hatt2, rfl, ?_, ?_, rfl⟩
    · exact lossStreak_eq_trailing (eventsFor history i)
    · intro hzero
      show lossStreak (eventsFor history i) = (eventsFor history i).length
      rw [lossStreak_eq_trailing]
      exact trailing_of_no_correct _ hzero
  · exact List.Pairwise.sublist (List.take_sublist limit _)
      (List.sorted_insertionSort problemRel _)
  · exact List.length_take_le limit _

theorem problem_songs_c5_witness :
    (∀ e ∈ getProblemSongs
        [⟨1, 10, true, 1⟩, ⟨1, 11, false, -1⟩, ⟨1, 12, false, -1⟩, ⟨1, 13, false, -1⟩,
         ⟨2, 10, false, -1⟩, ⟨2, 11, false, -1⟩] 5 3,
      3 ≤ e.attempts ∧
      e.attempts = (eventsFor
        [⟨1, 10, true, 1⟩, ⟨1, 11, false, -1⟩, ⟨1, 12, false, -1⟩, ⟨1, 13, false, -1⟩,
         ⟨2, 10, false, -1⟩, ⟨2, 11, false, -1⟩] e.song_id).length ∧
      e.loss_streak = trailingIncorrect (eventsFor
        [⟨1, 10, true, 1⟩, ⟨1, 11, false, -1⟩, ⟨1, 12, false, -1⟩, ⟨1, 13, false, -1⟩,
         ⟨2, 10, false, -1⟩, ⟨2, 11, false, -1⟩] e.song_id) ∧
      (((eventsFor
        [⟨1, 10, true, 1⟩, ⟨1, 11, false, -1⟩, ⟨1, 12, false, -1⟩, ⟨1, 13, false, -1⟩,
         ⟨2, 10, false, -1⟩, ⟨2, 11, false, -1⟩] e.song_id).countP (fun ev => ev.was_correct) = 0) →
        e.loss_streak = e.attempts) ∧
      e.success_rate
        = (((eventsFor
        [⟨1, 10, true, 1⟩, ⟨1, 11, false, -1⟩, ⟨1, 12, false, -1⟩, ⟨1, 13, false, -1⟩,
         ⟨2, 10, false, -1⟩, ⟨2, 11, false, -1⟩] e.song_id).countP (fun ev => ev.was_correct)) : ℚ)
            / ((((eventsFor
        [⟨1, 10, true, 1⟩, ⟨1, 11, false, -1⟩, ⟨1, 12, false, -1⟩, ⟨1, 13, false, -1⟩,
         ⟨2, 10, false, -1⟩, ⟨2, 11, false, -1⟩] e.song_id).length : ℕ)) : ℚ)) ∧
    List.Sorted problemRel (getProblemSongs
        [⟨1, 10, true, 1⟩, ⟨1, 11, false, -1⟩, ⟨1, 12, false, -1⟩, ⟨1, 13, false, -1⟩,
         ⟨2, 10, false, -1⟩, ⟨2, 11, false, -1⟩] 5 3) ∧
    (getProblemSongs
        [⟨1, 10, true, 1⟩, ⟨1, 11, false, -1⟩, ⟨1, 12, false, -1⟩, ⟨1, 13, false, -1⟩,
         ⟨2, 10, false, -1⟩, ⟨2, 11, false, -1⟩] 5 3).length ≤ 5 :=
  problem_songs_c5
    [⟨1, 10, true, 1⟩, ⟨1, 11, false, -1⟩, ⟨1, 12, false, -1⟩, ⟨1, 13, false, -1⟩,
     ⟨2, 10, false, -1⟩, ⟨2, 11, false, -1⟩] 5 3

end BlindTest
